import Mathlib

/-!
Shallow embedding of the N-body simulation core of `src/main.py`.

Conventions of the embedding:
* `numpy` 3-vectors become the `Vec3` structure over `ℝ`; a body's 2×3 state
  array `np.array([pos, vel])` becomes the `Body` structure.
* Python floats are idealised as real numbers, except for the deliberate
  `astype(np.single).astype(np.double)` round trip of `step_sieuler`, which is
  modelled by `fl32` (rounding to a 24-bit significand).
* Division by zero follows Lean's `x / 0 = 0` convention; where numpy would
  produce NaN/Inf (coincident bodies, zero total mass) the embedding produces
  these junk values instead, and the surrounding theorems only speak about the
  control flow (no exception is raised, the step commits), never about the junk.
* Python list indexing, including negative indices and `IndexError`, is
  modelled explicitly by `pyIndex`; mutating methods return the post-call
  object together with the exception they raise, if any, because a Python
  method that raises midway leaves its earlier in-place mutations visible.
* The module-level gravitational constant `G` is passed as the explicit
  argument `g` to every function that reads it in the source.
-/

namespace NBody

/-- A 3-component real vector, modelling the numpy length-3 arrays. -/
@[ext] structure Vec3 where
  x : ℝ
  y : ℝ
  z : ℝ

namespace Vec3

instance : Zero Vec3 := ⟨⟨0, 0, 0⟩⟩
instance : Add Vec3 := ⟨fun a b => ⟨a.x + b.x, a.y + b.y, a.z + b.z⟩⟩
instance : Neg Vec3 := ⟨fun a => ⟨-a.x, -a.y, -a.z⟩⟩
instance : Sub Vec3 := ⟨fun a b => ⟨a.x - b.x, a.y - b.y, a.z - b.z⟩⟩
instance : SMul ℝ Vec3 := ⟨fun r a => ⟨r * a.x, r * a.y, r * a.z⟩⟩

@[simp] theorem zero_x : (0 : Vec3).x = 0 := rfl
@[simp] theorem zero_y : (0 : Vec3).y = 0 := rfl
@[simp] theorem zero_z : (0 : Vec3).z = 0 := rfl
@[simp] theorem add_x (a b : Vec3) : (a + b).x = a.x + b.x := rfl
@[simp] theorem add_y (a b : Vec3) : (a + b).y = a.y + b.y := rfl
@[simp] theorem add_z (a b : Vec3) : (a + b).z = a.z + b.z := rfl
@[simp] theorem neg_x (a : Vec3) : (-a).x = -a.x := rfl
@[simp] theorem neg_y (a : Vec3) : (-a).y = -a.y := rfl
@[simp] theorem neg_z (a : Vec3) : (-a).z = -a.z := rfl
@[simp] theorem sub_x (a b : Vec3) : (a - b).x = a.x - b.x := rfl
@[simp] theorem sub_y (a b : Vec3) : (a - b).y = a.y - b.y := rfl
@[simp] theorem sub_z (a b : Vec3) : (a - b).z = a.z - b.z := rfl
@[simp] theorem smul_x (r : ℝ) (a : Vec3) : (r • a).x = r * a.x := rfl
@[simp] theorem smul_y (r : ℝ) (a : Vec3) : (r • a).y = r * a.y := rfl
@[simp] theorem smul_z (r : ℝ) (a : Vec3) : (r • a).z = r * a.z := rfl

instance : AddCommGroup Vec3 where
  add_assoc a b c := by ext <;> simp <;> ring
  zero_add a := by ext <;> simp
  add_zero a := by ext <;> simp
  add_comm a b := by ext <;> simp <;> ring
  neg_add_cancel a := by ext <;> simp
  sub_eq_add_neg a b := by ext <;> simp <;> ring
  nsmul := nsmulRec
  zsmul := zsmulRec

/-- Euclidean norm, modelling `np.linalg.norm` on a 3-vector. -/
noncomputable def norm (v : Vec3) : ℝ :=
  Real.sqrt (v.x ^ 2 + v.y ^ 2 + v.z ^ 2)

theorem norm_sub_comm (a b : Vec3) : (a - b).norm = (b - a).norm := by
  unfold norm
  simp only [sub_x, sub_y, sub_z]
  ring_nf

/-- The `x` coordinate as an additive monoid homomorphism (to push through sums). -/
def xHom : Vec3 →+ ℝ where
  toFun := Vec3.x
  map_zero' := rfl
  map_add' _ _ := rfl

/-- The `y` coordinate as an additive monoid homomorphism. -/
def yHom : Vec3 →+ ℝ where
  toFun := Vec3.y
  map_zero' := rfl
  map_add' _ _ := rfl

/-- The `z` coordinate as an additive monoid homomorphism. -/
def zHom : Vec3 →+ ℝ where
  toFun := Vec3.z
  map_zero' := rfl
  map_add' _ _ := rfl

theorem sum_x {ι : Type _} (s : Finset ι) (f : ι → Vec3) :
    (∑ i ∈ s, f i).x = ∑ i ∈ s, (f i).x :=
  map_sum xHom f s

theorem sum_y {ι : Type _} (s : Finset ι) (f : ι → Vec3) :
    (∑ i ∈ s, f i).y = ∑ i ∈ s, (f i).y :=
  map_sum yHom f s

theorem sum_z {ι : Type _} (s : Finset ι) (f : ι → Vec3) :
    (∑ i ∈ s, f i).z = ∑ i ∈ s, (f i).z :=
  map_sum zHom f s

end Vec3

/-- One body's state block, modelling the 2×3 array `np.array([pos, vel])`:
row 0 is the position, row 1 is the velocity. -/
@[ext] structure Body where
  pos : Vec3
  vel : Vec3

namespace Body

instance : Zero Body := ⟨⟨0, 0⟩⟩
instance : Add Body := ⟨fun a b => ⟨a.pos + b.pos, a.vel + b.vel⟩⟩
instance : SMul ℝ Body := ⟨fun r a => ⟨r • a.pos, r • a.vel⟩⟩

@[simp] theorem add_pos (a b : Body) : (a + b).pos = a.pos + b.pos := rfl
@[simp] theorem add_vel (a b : Body) : (a + b).vel = a.vel + b.vel := rfl
@[simp] theorem smul_pos (r : ℝ) (a : Body) : (r • a).pos = r • a.pos := rfl
@[simp] theorem smul_vel (r : ℝ) (a : Body) : (r • a).vel = r • a.vel := rfl

end Body

/-- Rounding a real to a 24-bit significand: the idealised model of the
`astype(np.single)` narrowing (followed by the exact widening back to double)
in `step_sieuler`.  A nonzero `x` with `2 ^ e ≤ |x| < 2 ^ (e + 1)` is rounded
to the nearest multiple of `2 ^ (e - 23)`; overflow and subnormal clamping of
IEEE single precision are not modelled. -/
noncomputable def fl32 (x : ℝ) : ℝ :=
  if x = 0 then 0
  else (round (x / (2 : ℝ) ^ (Int.log 2 |x| - 23)) : ℤ) * (2 : ℝ) ^ (Int.log 2 |x| - 23)

@[simp] theorem fl32_zero : fl32 0 = 0 := by
  unfold fl32
  simp

/-- The `astype(np.single).astype(np.double)` round trip applied to a 2×3 state
array: every component is narrowed to single precision and widened back. -/
noncomputable def Body.fl32cast (b : Body) : Body :=
  ⟨⟨fl32 b.pos.x, fl32 b.pos.y, fl32 b.pos.z⟩, ⟨fl32 b.vel.x, fl32 b.vel.y, fl32 b.vel.z⟩⟩

/-- Exceptions the Python code can raise: `IndexError` from indexing or
`list.pop` with an out-of-range index (the spec's `OutOfRange`), and
`ZeroDivisionError` from scalar division by zero (the spec's `EmptySystem`
condition in `center_of_mass`). -/
inductive PyError where
  | indexError : PyError
  | zeroDivisionError : PyError
deriving DecidableEq

/-- Python list-index resolution for a list of length `n`: integers in
`[0, n)` address directly, integers in `[-n, 0)` address from the end, and
everything else raises `IndexError` (`none`). -/
def pyIndex (n : ℕ) (i : ℤ) : Option ℕ :=
  if 0 ≤ i ∧ i < (n : ℤ) then some i.toNat
  else if -(n : ℤ) ≤ i ∧ i < 0 then some (i + n).toNat
  else none

/-- The `Simulation` object of `src/main.py`: parallel lists `masses` and
`bodies`, the accumulated time `t`, the cached body count `n` (a Python int,
hence `ℤ`), and the `running` flag. -/
structure Simulation where
  masses : List ℝ
  bodies : List Body
  t : ℝ
  n : ℤ
  running : Bool

namespace Simulation

/-- `Simulation.__init__(masses, bodies)`: stores both lists, sets `t = 0`,
caches `n = len(masses)` and sets `running = True`. -/
def init (masses : List ℝ) (bodies : List Body) : Simulation :=
  { masses := masses, bodies := bodies, t := 0, n := (masses.length : ℤ), running := true }

/-- `self.masses[i]` for `0 ≤ i`; out-of-range access (which would raise in
Python) yields the junk value `0`. -/
def mass (s : Simulation) (i : ℕ) : ℝ := s.masses.getD i 0

/-- `self.bodies[i]` for `0 ≤ i`; out-of-range access yields the junk body. -/
def body (s : Simulation) (i : ℕ) : Body := s.bodies.getD i 0

/-- `add_body(mass, pos, vel)`: appends to both lists and increments `n`. -/
def add_body (s : Simulation) (mass : ℝ) (pos vel : Vec3) : Simulation :=
  { s with masses := s.masses ++ [mass], bodies := s.bodies ++ [⟨pos, vel⟩],
           n := s.n + 1 }

/-- `set_body(index, mass, pos, vel)`: assigns `masses[index]` then
`bodies[index]`.  The result is the object after the call paired with the
exception raised, if any; note that if the first assignment succeeds and the
second raises, the first mutation stays visible, as in Python. -/
def set_body (s : Simulation) (index : ℤ) (mass : ℝ) (pos vel : Vec3) :
    Simulation × Option PyError :=
  match pyIndex s.masses.length index with
  | none => (s, some .indexError)
  | some im =>
    let s1 := { s with masses := s.masses.set im mass }
    match pyIndex s1.bodies.length index with
    | none => (s1, some .indexError)
    | some ib => ({ s1 with bodies := s1.bodies.set ib ⟨pos, vel⟩ }, none)

/-- `remove_body(index)`: pops `masses[index]`, then `bodies[index]`, then
decrements `n`.  As with `set_body`, a raise after the first pop leaves that
pop visible. -/
def remove_body (s : Simulation) (index : ℤ) : Simulation × Option PyError :=
  match pyIndex s.masses.length index with
  | none => (s, some .indexError)
  | some im =>
    let s1 := { s with masses := s.masses.eraseIdx im }
    match pyIndex s1.bodies.length index with
    | none => (s1, some .indexError)
    | some ib => ({ s1 with bodies := s1.bodies.eraseIdx ib, n := s1.n - 1 }, none)

/-- `dv_dt(i, body)`: net gravitational acceleration on body `i`.  The loop
accumulates, for each `j ≠ i` in `range(self.n)` in ascending order,
`G * masses[j] * offset / norm(offset) ** 3` with
`offset = bodies[j][0] - bodies[i][0]`; since real addition is commutative the
accumulation is written as a `Finset.range` sum.  The `body` parameter is
accepted (with default `None`) but never used by the loop, exactly as in the
source, where only the default-filling line mentions it. -/
noncomputable def dv_dt (s : Simulation) (g : ℝ) (i : ℕ)
    (candidate : Option Body) : Vec3 :=
  ∑ j ∈ Finset.range s.n.toNat,
    if j = i then 0
    else
      let offset := (s.body j).pos - (s.body i).pos
      (g * s.mass j / offset.norm ^ 3) • offset

/-- `ode(i, body)`: the ODE right-hand side `[body[1], dv_dt(i, body)]`, with
`body` defaulting to `self.bodies[i]`. -/
noncomputable def ode (s : Simulation) (g : ℝ) (i : ℕ)
    (candidate : Option Body) : Body :=
  let b := candidate.getD (s.body i)
  ⟨b.vel, s.dv_dt g i candidate⟩

/-- `step_euler(dt)`: builds the list `new` with
`new[i] = bodies[i] + ode(i) * dt` (all derivatives read the prior `bodies`,
which is only replaced after the loop), then commits it and adds `dt` to `t`. -/
noncomputable def step_euler (s : Simulation) (g dt : ℝ) : Simulation :=
  let new := (List.range s.n.toNat).map fun i => s.body i + dt • s.ode g i none
  { s with bodies := new, t := s.t + dt }

/-- `step_sieuler(dt)`: for each `i`, `y0 = bodies[i] + ode(i) * dt`, the
position row gets the in-place correction `r1 += ode(i)[1] * dt * dt` (the
second `ode(i)` call still reads the untouched prior `bodies`), and
`np.array([r1, v1])` is round-tripped through single precision before being
stored in `new`; afterwards `new` is committed and `t` increases by `dt`. -/
noncomputable def step_sieuler (s : Simulation) (g dt : ℝ) : Simulation :=
  let new := (List.range s.n.toNat).map fun i =>
    let y0 := s.body i + dt • s.ode g i none
    let r1 := y0.pos + (dt * dt) • (s.ode g i none).vel
    let v1 := y0.vel
    Body.fl32cast ⟨r1, v1⟩
  { s with bodies := new, t := s.t + dt }

/-- `energy()`: accumulates `masses[i] * norm(bodies[i][1]) ** 2 / 2` for every
`i` and subtracts `G * masses[i] * masses[j] / norm(bodies[j][0] - bodies[i][0])`
for every `j` in `range(i + 1, amt)`. -/
noncomputable def energy (s : Simulation) (g : ℝ) : ℝ :=
  ∑ i ∈ Finset.range s.n.toNat,
    (s.mass i * (s.body i).vel.norm ^ 2 / 2
      - ∑ j ∈ Finset.Ico (i + 1) s.n.toNat,
          g * s.mass i * s.mass j / ((s.body j).pos - (s.body i).pos).norm)

/-- `center_of_mass()`: `sum(masses[i] * bodies[i][0] for i in range(n)) / sum(masses)`.
With no bodies (`n ≤ 0`) the numerator is the Python int `0`, so the scalar
division raises `ZeroDivisionError` when `sum(masses)` is zero and returns the
scalar `0.0` (modelled as the zero vector) otherwise.  With at least one body
the numerator is a numpy array, whose division by a zero scalar yields
NaN/Inf junk without raising; the embedding's `x / 0 = 0` stands in for that
junk. -/
noncomputable def center_of_mass (s : Simulation) : Except PyError Vec3 :=
  if 0 < s.n then
    .ok ((s.masses.sum)⁻¹ • ∑ i ∈ Finset.range s.n.toNat, s.mass i • (s.body i).pos)
  else if s.masses.sum = 0 then .error .zeroDivisionError
  else .ok 0

/-- Some pair of distinct body indices below `n` occupies the same position:
the configuration in which `dv_dt` divides by a zero norm. -/
def singular (s : Simulation) : Prop :=
  ∃ i j, i < s.n.toNat ∧ j < s.n.toNat ∧ i ≠ j ∧ (s.body j).pos = (s.body i).pos

end Simulation

/-- The acceleration evaluator as the specification words it: body `i`'s own
position is taken from the supplied candidate state when one is given, the
other bodies use their stored positions.  Written from the spec, to be
compared against `Simulation.dv_dt`, which is written from the source. -/
noncomputable def dv_dtSpec (s : Simulation) (g : ℝ) (i : ℕ)
    (candidate : Option Body) : Vec3 :=
  let pi := (candidate.getD (s.body i)).pos
  ∑ j ∈ Finset.range s.n.toNat,
    if j = i then 0
    else
      let offset := (s.body j).pos - pi
      (g * s.mass j / offset.norm ^ 3) • offset

/-- The lock-step invariant of the data model: both parallel lists have the
same length and the cached count `n` agrees with it. -/
def lockstep (s : Simulation) : Prop :=
  s.masses.length = s.bodies.length ∧ s.n = (s.bodies.length : ℤ)

/-! ## Helper lemmas -/

theorem pyIndex_eq_none (n : ℕ) (i : ℤ) (h : i < -(n : ℤ) ∨ (n : ℤ) ≤ i) :
    pyIndex n i = none := by
  unfold pyIndex
  split_ifs with h1 h2
  · omega
  · omega
  · rfl

theorem pyIndex_lt (n : ℕ) (i : ℤ) (k : ℕ) (h : pyIndex n i = some k) : k < n := by
  unfold pyIndex at h
  split_ifs at h with h1 h2
  · cases h
    omega
  · cases h
    omega

theorem sum_antisymm (N : ℕ) (f : ℕ → ℕ → ℝ) (h : ∀ i j, f j i = -f i j) :
    ∑ i ∈ Finset.range N, ∑ j ∈ Finset.range N, f i j = 0 := by
  have h1 : ∑ i ∈ Finset.range N, ∑ j ∈ Finset.range N, f i j
      = -∑ i ∈ Finset.range N, ∑ j ∈ Finset.range N, f i j := by
    calc ∑ i ∈ Finset.range N, ∑ j ∈ Finset.range N, f i j
        = ∑ j ∈ Finset.range N, ∑ i ∈ Finset.range N, f i j := Finset.sum_comm
      _ = ∑ j ∈ Finset.range N, ∑ i ∈ Finset.range N, -f j i := by
          refine Finset.sum_congr rfl fun j _ => Finset.sum_congr rfl fun i _ => ?_
          rw [h j i]
      _ = -∑ i ∈ Finset.range N, ∑ j ∈ Finset.range N, f i j := by
          rw [← Finset.sum_neg_distrib]
          refine Finset.sum_congr rfl fun j _ => ?_
          rw [← Finset.sum_neg_distrib]
  linarith

theorem norm_unit_x : Vec3.norm ⟨1, 0, 0⟩ = 1 := by
  unfold Vec3.norm
  norm_num

theorem norm_neg_four_x : Vec3.norm ⟨-4, 0, 0⟩ = 4 := by
  unfold Vec3.norm
  rw [show ((-4 : ℝ) ^ 2 + 0 ^ 2 + 0 ^ 2 : ℝ) = 4 ^ 2 by norm_num,
    Real.sqrt_sq (by norm_num : (0 : ℝ) ≤ 4)]

/-! ## Claims -/

/-- C10: for every simulation state, every `g` and every `dt`, both
`step_euler` and `step_sieuler` leave the `masses` list, the cached count `n`
and the `running` flag unchanged; only `bodies` and `t` are written. -/
theorem claim_C10 (s : Simulation) (g dt : ℝ) :
    ((s.step_euler g dt).masses = s.masses ∧ (s.step_euler g dt).n = s.n ∧
      (s.step_euler g dt).running = s.running) ∧
    ((s.step_sieuler g dt).masses = s.masses ∧ (s.step_sieuler g dt).n = s.n ∧
      (s.step_sieuler g dt).running = s.running) :=
  ⟨⟨rfl, rfl, rfl⟩, ⟨rfl, rfl, rfl⟩⟩

/-- C5: for every state, `g` and `dt`, `step_euler` replaces the body list by
the list whose `i`-th entry is `bodies[i] + dt * (velocity_i, acceleration_i)`,
with every derivative evaluated on the prior state `s` (the snapshot), and
adds `dt` to the time; nothing of one body's update enters another body's
derivative because every derivative reads only `s`. -/
theorem claim_C5 (s : Simulation) (g dt : ℝ) :
    s.step_euler g dt =
      { s with
        bodies := (List.range s.n.toNat).map fun i =>
          s.body i + dt • Body.mk (s.body i).vel (s.dv_dt g i none),
        t := s.t + dt } := rfl

/-- C1: for every state, `g` and `dt`, `step_sieuler` stores for each index
`i` the single-precision round trip of the pair made of
`pos + dt * vel + dt ^ 2 * accel(pos)` and `vel + dt * accel(pos)`, where
`pos`, `vel` and the acceleration are read from the prior state, and adds
`dt` to the time. -/
theorem claim_C1 (s : Simulation) (g dt : ℝ) :
    s.step_sieuler g dt =
      { s with
        bodies := (List.range s.n.toNat).map fun i =>
          Body.fl32cast
            ⟨(s.body i).pos + dt • (s.body i).vel + dt ^ 2 • s.dv_dt g i none,
             (s.body i).vel + dt • s.dv_dt g i none⟩,
        t := s.t + dt } := by
  simp only [Simulation.step_sieuler, Simulation.ode]
  rw [Simulation.mk.injEq]
  refine ⟨rfl, ?_, rfl, rfl, rfl⟩
  refine List.map_congr_left fun i _ => ?_
  refine congrArg Body.fl32cast ?_
  ext <;>
    simp only [Option.getD_none, Body.add_pos, Body.add_vel, Body.smul_pos,
      Body.smul_vel, Vec3.add_x, Vec3.add_y, Vec3.add_z, Vec3.smul_x,
      Vec3.smul_y, Vec3.smul_z] <;>
    ring

/-- C2 (amended): the acceleration evaluator ignores the candidate state it is
handed and always evaluates the gravitational sum at body `i`'s stored
position: for every state, `g`, index and candidate, `dv_dt` agrees with the
specification formula instantiated with no candidate (stored positions for
every body, ascending-`j` summation). -/
theorem claim_C2 (s : Simulation) (g : ℝ) (i : ℕ) (candidate : Option Body) :
    s.dv_dt g i candidate = dv_dtSpec s g i none := rfl

/-- C2 counterexample: with two unit masses stored at the origin and at
`(1,0,0)`, `g = 1` and the candidate position `(5,0,0)` for body `0`, the code
returns the acceleration computed at the stored origin, `(1,0,0)`, whereas the
claim's formula (candidate position for body `i`) yields `(-1/16,0,0)`: at
this input the evaluator does not use the candidate position. -/
theorem claim_C2_counterexample :
    Simulation.dv_dt
        (Simulation.init [1, 1] [⟨⟨0, 0, 0⟩, 0⟩, ⟨⟨1, 0, 0⟩, 0⟩]) 1 0
        (some ⟨⟨5, 0, 0⟩, 0⟩) ≠
      dv_dtSpec
        (Simulation.init [1, 1] [⟨⟨0, 0, 0⟩, 0⟩, ⟨⟨1, 0, 0⟩, 0⟩]) 1 0
        (some ⟨⟨5, 0, 0⟩, 0⟩) := by
  have h1 : Simulation.dv_dt
      (Simulation.init [1, 1] [⟨⟨0, 0, 0⟩, 0⟩, ⟨⟨1, 0, 0⟩, 0⟩]) 1 0
      (some ⟨⟨5, 0, 0⟩, 0⟩) = ⟨1, 0, 0⟩ := by
    unfold Simulation.dv_dt
    rw [show (Simulation.init [1, 1] [⟨⟨0, 0, 0⟩, 0⟩, ⟨⟨1, 0, 0⟩, 0⟩]).n.toNat = 2
      from rfl]
    rw [Finset.sum_range_succ, Finset.sum_range_one]
    simp only [Simulation.init, Simulation.body, Simulation.mass,
      List.getD_cons_zero, List.getD_cons_succ]
    rw [show ((⟨1, 0, 0⟩ : Vec3) - ⟨0, 0, 0⟩) = ⟨1, 0, 0⟩ by ext <;> simp]
    rw [norm_unit_x]
    ext <;> simp
  have h2 : dv_dtSpec
      (Simulation.init [1, 1] [⟨⟨0, 0, 0⟩, 0⟩, ⟨⟨1, 0, 0⟩, 0⟩]) 1 0
      (some ⟨⟨5, 0, 0⟩, 0⟩) = ⟨-(1 / 16), 0, 0⟩ := by
    unfold dv_dtSpec
    rw [show (Simulation.init [1, 1] [⟨⟨0, 0, 0⟩, 0⟩, ⟨⟨1, 0, 0⟩, 0⟩]).n.toNat = 2
      from rfl]
    rw [Finset.sum_range_succ, Finset.sum_range_one]
    simp only [Simulation.init, Simulation.body, Simulation.mass,
      List.getD_cons_zero, List.getD_cons_succ, Option.getD_some]
    rw [show ((⟨1, 0, 0⟩ : Vec3) - ⟨5, 0, 0⟩) = ⟨-4, 0, 0⟩ by ext <;> simp <;> norm_num]
    rw [norm_neg_four_x]
    ext <;> simp <;> norm_num
  intro hEq
  rw [h1, h2] at hEq
  have hx := congrArg Vec3.x hEq
  norm_num at hx

/-- C3: the claim is right about the intended design and the code violates it.
With two bodies both stored at the origin the pairwise distance is zero, yet
`dv_dt` has no guard and `step_sieuler` has no failure path at all: the step
still commits a full new body list and advances the time (in numpy the
committed positions are NaN from the `0/0` contributions; the embedding's
division-by-zero junk stands in for them).  Nothing raises
`SingularConfiguration` and nothing aborts the commit. -/
theorem claim_C3 :
    Simulation.singular (Simulation.init [1, 1] [⟨⟨0, 0, 0⟩, 0⟩, ⟨⟨0, 0, 0⟩, 0⟩]) ∧
    ((Simulation.init [1, 1] [⟨⟨0, 0, 0⟩, 0⟩, ⟨⟨0, 0, 0⟩, 0⟩]).step_sieuler 1 1).t =
      (Simulation.init [1, 1] [⟨⟨0, 0, 0⟩, 0⟩, ⟨⟨0, 0, 0⟩, 0⟩]).t + 1 ∧
    ((Simulation.init [1, 1] [⟨⟨0, 0, 0⟩, 0⟩, ⟨⟨0, 0, 0⟩, 0⟩]).step_sieuler 1 1).bodies.length
      = 2 := by
  refine ⟨⟨0, 1, ?_, ?_, ?_, rfl⟩, rfl, ?_⟩
  · simp [Simulation.init]
  · simp [Simulation.init]
  · decide
  · simp [Simulation.step_sieuler, Simulation.init]

/-- C4 (amended): for a state whose two lists are in lock-step, any index
outside Python's valid range `-n .. n-1` makes both `set_body` and
`remove_body` raise `IndexError` (the spec's `OutOfRange`) while leaving the
whole state untouched.  (Indices `-n .. -1`, excluded by the claim's
`0 .. n-1` range, are in fact valid Python indices addressing from the end;
see the counterexample.) -/
theorem claim_C4 (s : Simulation) (index : ℤ) (m : ℝ) (p v : Vec3)
    (hlen : s.masses.length = s.bodies.length)
    (hout : index < -(s.bodies.length : ℤ) ∨ (s.bodies.length : ℤ) ≤ index) :
    s.set_body index m p v = (s, some PyError.indexError) ∧
    s.remove_body index = (s, some PyError.indexError) := by
  have hnone : pyIndex s.masses.length index = none := by
    apply pyIndex_eq_none
    rw [hlen]
    exact hout
  constructor
  · unfold Simulation.set_body
    rw [hnone]
  · unfold Simulation.remove_body
    rw [hnone]

/-- C4 witness: a one-body simulation with index `5`. -/
theorem claim_C4_witness :
    (Simulation.init [1] [⟨⟨2, 0, 0⟩, 0⟩]).set_body 5 7 0 0 =
      (Simulation.init [1] [⟨⟨2, 0, 0⟩, 0⟩], some PyError.indexError) ∧
    (Simulation.init [1] [⟨⟨2, 0, 0⟩, 0⟩]).remove_body 5 =
      (Simulation.init [1] [⟨⟨2, 0, 0⟩, 0⟩], some PyError.indexError) :=
  claim_C4 (Simulation.init [1] [⟨⟨2, 0, 0⟩, 0⟩]) 5 7 0 0 rfl
    (Or.inr (by simp [Simulation.init]))

/-- C4 counterexample: the index `-1` is not in `0 .. len(bodies)-1`, yet on a
one-body simulation `set_body(-1, ...)` raises nothing and replaces the body
(the mass list becomes `[5]`), and `remove_body(-1)` raises nothing and
empties the body list: Python's negative indexing makes the claim false as
stated. -/
theorem claim_C4_counterexample :
    ((Simulation.init [1] [⟨⟨2, 0, 0⟩, 0⟩]).set_body (-1) 5 ⟨9, 0, 0⟩ 0).2 = none ∧
    ((Simulation.init [1] [⟨⟨2, 0, 0⟩, 0⟩]).set_body (-1) 5 ⟨9, 0, 0⟩ 0).1.masses = [5] ∧
    ((Simulation.init [1] [⟨⟨2, 0, 0⟩, 0⟩]).remove_body (-1)).2 = none ∧
    ((Simulation.init [1] [⟨⟨2, 0, 0⟩, 0⟩]).remove_body (-1)).1.bodies = [] :=
  ⟨rfl, rfl, rfl, rfl⟩

/-- C6: for every state whose bodies occupy pairwise distinct positions, the
mass-weighted sum of the accelerations `dv_dt` vanishes: the pairwise
contributions are antisymmetric (Newton's third law), in the exact real
arithmetic of the embedding. -/
theorem claim_C6 (s : Simulation) (g : ℝ)
    (hdist : ∀ i j, i < s.n.toNat → j < s.n.toNat → i ≠ j →
      (s.body i).pos ≠ (s.body j).pos) :
    ∑ i ∈ Finset.range s.n.toNat, s.mass i • s.dv_dt g i none = 0 := by
  have main : ∀ c : Vec3 → ℝ, (∀ a b, c (a + b) = c a + c b) →
      (∀ r a, c (r • a) = r * c a) →
      c (∑ i ∈ Finset.range s.n.toNat, s.mass i • s.dv_dt g i none) = 0 := by
    intro c hadd hsmul
    have hzero : c 0 = 0 := by
      have h00 : (0 : ℝ) • (0 : Vec3) = 0 := by
        ext <;> simp
      have := hsmul 0 0
      rw [h00] at this
      simpa using this
    have hsub : ∀ a b : Vec3, c (a - b) = c a - c b := by
      intro a b
      have h1 : a - b + b = a := by
        ext <;> simp
      have h2 := hadd (a - b) b
      rw [h1] at h2
      linarith
    have hCsum : ∀ (t : Finset ℕ) (f : ℕ → Vec3),
        c (∑ i ∈ t, f i) = ∑ i ∈ t, c (f i) :=
      fun t f => map_sum (AddMonoidHom.mk' c hadd) f t
    rw [hCsum]
    have step1 : ∀ i, c (s.mass i • s.dv_dt g i none) =
        ∑ j ∈ Finset.range s.n.toNat,
          (if j = i then 0
           else (s.mass i * (g * s.mass j /
               ((s.body j).pos - (s.body i).pos).norm ^ 3)) *
             (c ((s.body j).pos) - c ((s.body i).pos))) := by
      intro i
      rw [hsmul]
      unfold Simulation.dv_dt
      rw [hCsum, Finset.mul_sum]
      refine Finset.sum_congr rfl fun j _ => ?_
      by_cases hij : j = i
      · simp [hij, hzero]
      · simp only [if_neg hij]
        rw [hsmul, hsub]
        ring
    rw [Finset.sum_congr rfl fun i _ => step1 i]
    apply sum_antisymm
    intro i j
    by_cases hij : i = j
    · simp [hij]
    · have hsymm : ((s.body i).pos - (s.body j).pos).norm =
          ((s.body j).pos - (s.body i).pos).norm := Vec3.norm_sub_comm _ _
      rw [if_neg hij, if_neg fun h => hij h.symm, hsymm]
      ring
  have hx := main Vec3.x (fun _ _ => rfl) (fun _ _ => rfl)
  have hy := main Vec3.y (fun _ _ => rfl) (fun _ _ => rfl)
  have hz := main Vec3.z (fun _ _ => rfl) (fun _ _ => rfl)
  ext
  · simpa using hx
  · simpa using hy
  · simpa using hz

/-- C6 witness: two unit masses at the distinct positions `(0,0,0)` and
`(1,0,0)` with `g = 1`. -/
theorem claim_C6_witness :
    (∀ i j, i < (Simulation.init [1, 1] [⟨⟨0, 0, 0⟩, 0⟩, ⟨⟨1, 0, 0⟩, 0⟩]).n.toNat →
      j < (Simulation.init [1, 1] [⟨⟨0, 0, 0⟩, 0⟩, ⟨⟨1, 0, 0⟩, 0⟩]).n.toNat → i ≠ j →
      ((Simulation.init [1, 1] [⟨⟨0, 0, 0⟩, 0⟩, ⟨⟨1, 0, 0⟩, 0⟩]).body i).pos ≠
        ((Simulation.init [1, 1] [⟨⟨0, 0, 0⟩, 0⟩, ⟨⟨1, 0, 0⟩, 0⟩]).body j).pos) ∧
    ∑ i ∈ Finset.range (Simulation.init [1, 1] [⟨⟨0, 0, 0⟩, 0⟩, ⟨⟨1, 0, 0⟩, 0⟩]).n.toNat,
      (Simulation.init [1, 1] [⟨⟨0, 0, 0⟩, 0⟩, ⟨⟨1, 0, 0⟩, 0⟩]).mass i •
        (Simulation.init [1, 1] [⟨⟨0, 0, 0⟩, 0⟩, ⟨⟨1, 0, 0⟩, 0⟩]).dv_dt 1 i none = 0 := by
  have hd : ∀ i j,
      i < (Simulation.init [1, 1] [⟨⟨0, 0, 0⟩, 0⟩, ⟨⟨1, 0, 0⟩, 0⟩]).n.toNat →
      j < (Simulation.init [1, 1] [⟨⟨0, 0, 0⟩, 0⟩, ⟨⟨1, 0, 0⟩, 0⟩]).n.toNat → i ≠ j →
      ((Simulation.init [1, 1] [⟨⟨0, 0, 0⟩, 0⟩, ⟨⟨1, 0, 0⟩, 0⟩]).body i).pos ≠
        ((Simulation.init [1, 1] [⟨⟨0, 0, 0⟩, 0⟩, ⟨⟨1, 0, 0⟩, 0⟩]).body j).pos := by
    intro i j hi hj hne
    have hi2 : i < 2 := hi
    have hj2 : j < 2 := hj
    interval_cases i <;> interval_cases j
    · exact absurd rfl hne
    · intro h
      have hx := congrArg Vec3.x h
      simp [Simulation.body, Simulation.init] at hx
    · intro h
      have hx := congrArg Vec3.x h
      simp [Simulation.body, Simulation.init] at hx
    · exact absurd rfl hne
  exact ⟨hd, claim_C6 (Simulation.init [1, 1] [⟨⟨0, 0, 0⟩, 0⟩, ⟨⟨1, 0, 0⟩, 0⟩]) 1 hd⟩

/-- C7: for every state and every `g`, `energy` equals the kinetic sum
`Σ (1/2) m_i |v_i|²` minus the potential sum `Σ_{i<j} g m_i m_j / |p_i - p_j|`,
each unordered pair appearing exactly once (as the inner sum over
`j ∈ [i+1, n)`); the query is a pure function of the state. -/
theorem claim_C7 (s : Simulation) (g : ℝ) :
    s.energy g =
      (∑ i ∈ Finset.range s.n.toNat, 1 / 2 * s.mass i * (s.body i).vel.norm ^ 2)
        - ∑ i ∈ Finset.range s.n.toNat, ∑ j ∈ Finset.Ico (i + 1) s.n.toNat,
            g * s.mass i * s.mass j / ((s.body i).pos - (s.body j).pos).norm := by
  unfold Simulation.energy
  rw [Finset.sum_sub_distrib]
  congr 1
  · refine Finset.sum_congr rfl fun i _ => ?_
    ring
  · refine Finset.sum_congr rfl fun i _ => Finset.sum_congr rfl fun j _ => ?_
    rw [Vec3.norm_sub_comm]

/-- C8 (amended): `center_of_mass` raises (`ZeroDivisionError`, the
`EmptySystem` condition) exactly in the zero-body, zero-total-mass situation;
whenever at least one body is present it commits the mass-weighted mean
`Σ m_i p_i / Σ m_i` without raising — including when the total mass is zero,
where numpy silently yields NaN/Inf components instead of failing — and for a
single body of nonzero mass it returns that body's own position. -/
theorem claim_C8 (s : Simulation) :
    (s.n ≤ 0 ∧ s.masses.sum = 0 →
      s.center_of_mass = Except.error PyError.zeroDivisionError) ∧
    (0 < s.n →
      s.center_of_mass =
        Except.ok ((s.masses.sum)⁻¹ •
          ∑ i ∈ Finset.range s.n.toNat, s.mass i • (s.body i).pos)) ∧
    (∀ m p v, m ≠ 0 →
      (Simulation.init [m] [⟨p, v⟩]).center_of_mass = Except.ok p) := by
  refine ⟨?_, ?_, ?_⟩
  · rintro ⟨h1, h2⟩
    unfold Simulation.center_of_mass
    rw [if_neg (by omega), if_pos h2]
  · intro h
    unfold Simulation.center_of_mass
    rw [if_pos h]
  · intro m p v hm
    unfold Simulation.center_of_mass
    rw [if_pos (by simp [Simulation.init])]
    congr 1
    rw [show (Simulation.init [m] [⟨p, v⟩]).n.toNat = 1 from rfl,
      Finset.sum_range_one]
    simp only [Simulation.init, Simulation.mass, Simulation.body,
      List.getD_cons_zero, List.sum_cons, List.sum_nil, add_zero]
    ext <;> exact inv_mul_cancel_left₀ hm _

/-- C8 witness: the empty simulation raises, and one body of mass `1` at
`(2,0,0)` is its own center of mass. -/
theorem claim_C8_witness :
    (Simulation.init [] []).center_of_mass = Except.error PyError.zeroDivisionError ∧
    (Simulation.init [1] [⟨⟨2, 0, 0⟩, 0⟩]).center_of_mass = Except.ok ⟨2, 0, 0⟩ :=
  ⟨(claim_C8 (Simulation.init [] [])).1 ⟨by simp [Simulation.init], by simp [Simulation.init]⟩,
   (claim_C8 (Simulation.init [] [])).2.2 1 ⟨2, 0, 0⟩ 0 one_ne_zero⟩

/-- C8 counterexample: one body of mass `0` — the body count is nonzero but
the total mass is zero, so the claim demands an `EmptySystem` failure.  The
code raises nothing and commits a result (`numpy` divides the array by the
zero scalar, yielding NaN components; the embedding's junk value for that
division is the zero vector). -/
theorem claim_C8_counterexample :
    (Simulation.init [0] [⟨⟨1, 0, 0⟩, 0⟩]).center_of_mass = Except.ok 0 := by
  unfold Simulation.center_of_mass
  rw [if_pos (by simp [Simulation.init])]
  congr 1
  rw [show (Simulation.init [0] [⟨⟨1, 0, 0⟩, 0⟩]).n.toNat = 1 from rfl,
    Finset.sum_range_one]
  simp only [Simulation.init, Simulation.mass, Simulation.body,
    List.getD_cons_zero, List.sum_cons, List.sum_nil, add_zero]
  ext <;> simp [Simulation.mass]

/-- C9 (amended): the lock-step invariant `len(masses) = len(bodies) = n`
holds after construction whenever the two constructor arguments have equal
length (the constructor does not validate this; see the counterexample), and
is preserved by `add_body` and by every `set_body` or `remove_body` call that
raises nothing. -/
theorem claim_C9 :
    (∀ ms bs, ms.length = bs.length → lockstep (Simulation.init ms bs)) ∧
    (∀ (s : Simulation) m p v, lockstep s → lockstep (s.add_body m p v)) ∧
    (∀ (s : Simulation) idx m p v, lockstep s → (s.set_body idx m p v).2 = none →
      lockstep (s.set_body idx m p v).1) ∧
    (∀ (s : Simulation) idx, lockstep s → (s.remove_body idx).2 = none →
      lockstep (s.remove_body idx).1) := by
  refine ⟨?_, ?_, ?_, ?_⟩
  · intro ms bs h
    exact ⟨h, by simp [Simulation.init, h]⟩
  · rintro s m p v ⟨h1, h2⟩
    refine ⟨?_, ?_⟩
    · simp [Simulation.add_body, h1]
    · simp [Simulation.add_body, h2]
  · rintro s idx m p v ⟨h1, h2⟩ hnone
    rcases hm : pyIndex s.masses.length idx with _ | im
    · simp [Simulation.set_body, hm] at hnone
    · rcases hb : pyIndex s.bodies.length idx with _ | ib
      · simp [Simulation.set_body, hm, hb] at hnone
      · simp only [Simulation.set_body, hm, hb]
        exact ⟨by simp [h1], by simp [h2]⟩
  · rintro s idx ⟨h1, h2⟩ hnone
    rcases hm : pyIndex s.masses.length idx with _ | im
    · simp [Simulation.remove_body, hm] at hnone
    · rcases hb : pyIndex s.bodies.length idx with _ | ib
      · simp [Simulation.remove_body, hm, hb] at hnone
      · simp only [Simulation.remove_body, hm, hb]
        have him : im < s.masses.length := pyIndex_lt _ _ _ hm
        have hib : ib < s.bodies.length := pyIndex_lt _ _ _ hb
        have him2 : im < s.bodies.length := h1 ▸ him
        refine ⟨?_, ?_⟩
        · rw [List.length_eraseIdx, List.length_eraseIdx]
          simp [him2, hib, h1]
        · rw [List.length_eraseIdx]
          simp only [hib, if_true]
          omega

/-- C9 witness: the invariant after empty construction, after an `add_body`,
and after a successful `set_body` and `remove_body` at index `0`. -/
theorem claim_C9_witness :
    lockstep (Simulation.init [] []) ∧
    lockstep ((Simulation.init [] []).add_body 1 0 0) ∧
    lockstep ((Simulation.init [5] [⟨0, 0⟩]).set_body 0 7 0 0).1 ∧
    lockstep ((Simulation.init [5] [⟨0, 0⟩]).remove_body 0).1 := by
  have h0 : lockstep (Simulation.init [] []) := claim_C9.1 [] [] rfl
  have h5 : lockstep (Simulation.init [5] [⟨0, 0⟩]) := claim_C9.1 [5] [⟨0, 0⟩] rfl
  exact ⟨h0, claim_C9.2.1 (Simulation.init [] []) 1 0 0 h0,
    claim_C9.2.2.1 (Simulation.init [5] [⟨0, 0⟩]) 0 7 0 0 h5 rfl,
    claim_C9.2.2.2 (Simulation.init [5] [⟨0, 0⟩]) 0 h5 rfl⟩

/-- C9 counterexample: the constructor accepts lists of different lengths and
caches `n = len(masses)`, so `Simulation([1], [])` already violates the
invariant `len(masses) = len(bodies) = n` right after construction. -/
theorem claim_C9_counterexample : ¬ lockstep (Simulation.init [1] []) := by
  rintro ⟨h, -⟩
  simp [Simulation.init] at h

end NBody
